import Mathlib

/-!
Shallow embedding of the `MyVec<T>` dynamic array from `src/lib.rs`.

Two levels of modelling are used:

* a byte/allocation-level model (`RawBuf`, `grow`, `mkNew`) that follows the
  size computations of `MyVec::grow` and the assertion of `MyVec::new`
  literally, including the arguments the source passes to `alloc`, `realloc`
  and `assert!`;
* an element-slot model (`VecState`, `IntoIter`) in which the backing memory
  is a total function from slot indices to values.  `std::ptr::write` becomes
  `writeSlot`, the overlapping `std::ptr::copy` (memmove semantics) becomes
  `copySlots`, and `std::ptr::read` of slot `i` is application of the memory
  function at `i`.  Slots at or beyond `len` hold an arbitrary junk value and
  are never read by the operations below, mirroring uninitialized memory.

Fatal faults (panics, `handle_alloc_error`) are modelled with `Except Fault`.
-/

set_option autoImplicit false

namespace MyVecModel

/-- Fatal faults of the container: panics from `assert!`/`unwrap` and the
diverging `handle_alloc_error`. -/
inductive Fault where
  | boundsFault
  | zstAssert
  | layoutOverflow
  | allocTooLarge
  | allocFail
  deriving DecidableEq, Repr

/-- `isize::MAX` on a 64-bit platform. -/
def isizeMax : Nat := 2 ^ 63 - 1

/-- `alloc::Layout::array::<T>(n)`: the layout of `n` elements of byte size
`sizeOfT` has size `n * sizeOfT`; the constructor errors (so the source's
`.unwrap()` panics) when that size exceeds `isize::MAX`. -/
def layoutArray (sizeOfT n : Nat) : Option Nat :=
  if n * sizeOfT ≤ isizeMax then some (n * sizeOfT) else none

/-- Allocation-level view of `MyVec`'s buffer: the capacity field and the
number of bytes actually backing the pointer. -/
structure RawBuf where
  cap : Nat
  allocBytes : Nat
  deriving DecidableEq, Repr

/-- `MyVec::grow` at the allocation level, translated from `src/lib.rs:32-59`.
`new_cap` is 1 when `cap` is 0 and `cap * 2` otherwise; the new layout is
`Layout::array::<T>(new_cap).unwrap()`; the source then asserts
`new_layout.size() <= isize::MAX`.  If `cap == 0` it calls
`alloc(new_layout)`, obtaining `new_layout.size()` bytes; otherwise it calls
`realloc(old_ptr, old_layout, new_cap)`, whose third argument is the new size
in bytes, so the reallocated block has `new_cap` bytes — exactly as written
in the source.  `allocOk` models whether the underlying allocator call
succeeds; on failure the source diverges via `handle_alloc_error`, and the
fields `ptr`/`cap` are assigned only after that check. -/
def grow (sizeOfT : Nat) (b : RawBuf) (allocOk : Bool) : Except Fault RawBuf :=
  let newCap := if b.cap = 0 then 1 else b.cap * 2
  match layoutArray sizeOfT newCap with
  | none => .error .layoutOverflow
  | some newLayoutSize =>
    if newLayoutSize ≤ isizeMax then
      let newBytes := if b.cap = 0 then newLayoutSize else newCap
      if allocOk then .ok ⟨newCap, newBytes⟩ else .error .allocFail
    else .error .allocTooLarge

/-- `MyVec::new` at the allocation level (`src/lib.rs:19-30`): it asserts
`align_of::<T>() != 0` ("Zero-Sized-Types are not allowed to create Vec") and
then returns a vector with a dangling pointer, `cap = 0` and `len = 0`.  The
result pairs the buffer with the length field. -/
def mkNew (alignOfT : Nat) : Except Fault (RawBuf × Nat) :=
  if alignOfT ≠ 0 then .ok (⟨0, 0⟩, 0) else .error .zstAssert

/-- In Rust, `size_of::<()>() = 0`: the unit type is a zero-sized type. -/
def sizeOfUnitType : Nat := 0

/-- In Rust, `align_of::<()>() = 1`: every Rust type, zero-sized or not, has
alignment at least 1. -/
def alignOfUnitType : Nat := 1

/-- Write `x` into slot `i` of the memory `buf`: `std::ptr::write`. -/
def writeSlot {α : Type} (buf : Nat → α) (i : Nat) (x : α) : Nat → α :=
  fun j => if j = i then x else buf j

/-- Copy `count` slots starting at `src` to `dst`: `std::ptr::copy`, which has
memmove semantics (overlapping ranges behave as if through a temporary
buffer), so slot `dst + k` receives the old content of slot `src + k`. -/
def copySlots {α : Type} (buf : Nat → α) (src dst count : Nat) : Nat → α :=
  fun j => if dst ≤ j ∧ j < dst + count then buf (src + (j - dst)) else buf j

/-- Element-slot model of `MyVec<T>`: the backing memory as a function from
slot indices to values, the capacity and the length.  Slots at index `≥ len`
hold junk standing for uninitialized memory. -/
structure VecState (α : Type) where
  buf : Nat → α
  cap : Nat
  len : Nat

namespace VecState

variable {α : Type}

/-- `MyVec::new` at the element level: `junk` is the arbitrary content of the
uninitialized (dangling) memory, never read through live slots. -/
def new (junk : α) : VecState α :=
  ⟨fun _ => junk, 0, 0⟩

/-- `MyVec::grow` at the element level: capacity 0 becomes 1, otherwise the
capacity doubles; slot contents stay at their offsets (the reallocation
contract; the byte-size accounting of the source's actual `realloc` call is
the separate `MyVecModel.grow`). -/
def grow (v : VecState α) : VecState α :=
  ⟨v.buf, if v.cap = 0 then 1 else v.cap * 2, v.len⟩

/-- `MyVec::push` (`src/lib.rs:61-70`): grow when `len == cap`, write the
element into slot `len`, increment `len`. -/
def push (v : VecState α) (ele : α) : VecState α :=
  let v1 := if v.len = v.cap then v.grow else v
  ⟨writeSlot v1.buf v1.len ele, v1.cap, v1.len + 1⟩

/-- `MyVec::pop` (`src/lib.rs:72-79`): `None` when empty, otherwise decrement
`len` and read the slot at the new `len`. -/
def pop (v : VecState α) : Option α × VecState α :=
  if v.len = 0 then (none, v)
  else (some (v.buf (v.len - 1)), ⟨v.buf, v.cap, v.len - 1⟩)

/-- `MyVec::insert` (`src/lib.rs:81-94`): assert `idx <= len` (panic is the
`boundsFault`), grow when full, copy the `len - idx` slots starting at `idx`
one slot up, write the element at `idx`, increment `len`. -/
def insert (v : VecState α) (idx : Nat) (ele : α) : Except Fault (VecState α) :=
  if idx ≤ v.len then
    let v1 := if v.len = v.cap then v.grow else v
    .ok ⟨writeSlot (copySlots v1.buf idx (idx + 1) (v1.len - idx)) idx ele,
         v1.cap, v1.len + 1⟩
  else .error .boundsFault

/-- `MyVec::remove` (`src/lib.rs:96-107`): assert `idx < len`, read the item
at `idx`, copy the `len - idx - 1` slots starting at `idx + 1` one slot down,
decrement `len`, return the item. -/
def remove (v : VecState α) (idx : Nat) : Except Fault (α × VecState α) :=
  if idx < v.len then
    .ok (v.buf idx,
         ⟨copySlots v.buf (idx + 1) idx (v.len - idx - 1), v.cap, v.len - 1⟩)
  else .error .boundsFault

/-- The `Deref` impl (`src/lib.rs:132-138`): the slice
`from_raw_parts(ptr, len)`, i.e. the live slots `[0, len)` in order. -/
def deref (v : VecState α) : List α :=
  (List.range v.len).map v.buf

/-- Writing through the `DerefMut` slice (`src/lib.rs:140-144`): `v[i] = x`
bounds-checks `i < len` (out of bounds panics) and overwrites slot `i`. -/
def setIdx (v : VecState α) (i : Nat) (x : α) : Except Fault (VecState α) :=
  if i < v.len then .ok ⟨writeSlot v.buf i x, v.cap, v.len⟩
  else .error .boundsFault

end VecState

/-- `IntoIter<T>` (`src/lib.rs:162-168`): the buffer, its capacity and the two
cursors, as slot indices.  The source's `end` field is named `stop` here
because `end` is reserved in Lean. -/
structure IntoIter (α : Type) where
  buf : Nat → α
  cap : Nat
  start : Nat
  stop : Nat

/-- `MyVec::into_iter` (`src/lib.rs:109-129`): ownership of the buffer moves
to the iterator; `start` is the base pointer (slot 0) and `end` is the base
pointer when `cap == 0` and `ptr.add(len)` otherwise. -/
def VecState.into_iter {α : Type} (v : VecState α) : IntoIter α :=
  ⟨v.buf, v.cap, 0, if v.cap = 0 then 0 else v.len⟩

namespace IntoIter

variable {α : Type}

/-- `Iterator::next` (`src/lib.rs:170-182`): `None` when `start == end`,
otherwise advance `start` and yield the slot it pointed to. -/
def next (it : IntoIter α) : Option α × IntoIter α :=
  if it.start = it.stop then (none, it)
  else (some (it.buf it.start), ⟨it.buf, it.cap, it.start + 1, it.stop⟩)

/-- `DoubleEndedIterator::next_back` (`src/lib.rs:184-193`): `None` when
`start == end`, otherwise step `end` back and yield the slot it now points
to. -/
def next_back (it : IntoIter α) : Option α × IntoIter α :=
  if it.start = it.stop then (none, it)
  else (some (it.buf (it.stop - 1)), ⟨it.buf, it.cap, it.start, it.stop - 1⟩)

/-- The still-unconsumed elements, the slots in `[start, stop)`. -/
def remaining (it : IntoIter α) : List α :=
  (List.range (it.stop - it.start)).map (fun i => it.buf (it.start + i))

end IntoIter

/-- A direction of consumption of the double-ended iterator. -/
inductive Dir where
  | front
  | back
  deriving DecidableEq, Repr

/-- One iterator call: `next` for `front`, `next_back` for `back`. -/
def IntoIter.step {α : Type} (it : IntoIter α) : Dir → Option α × IntoIter α
  | .front => it.next
  | .back => it.next_back

/-- Run a sequence of `next`/`next_back` calls, collecting every result. -/
def runIter {α : Type} : List Dir → IntoIter α → List (Option α) × IntoIter α
  | [], it => ([], it)
  | d :: ds, it =>
    let r1 := it.step d
    let r2 := runIter ds r1.2
    (r1.1 :: r2.1, r2.2)

/-- Push every element of a list in order. -/
def pushAll {α : Type} (v : VecState α) : List α → VecState α
  | [] => v
  | x :: xs => pushAll (v.push x) xs

/-- Pop `n` times, collecting every result. -/
def pops {α : Type} : Nat → VecState α → List (Option α) × VecState α
  | 0, v => ([], v)
  | n + 1, v =>
    let r1 := v.pop
    let r2 := pops n r1.2
    (r1.1 :: r2.1, r2.2)

/-! ### Helper lemmas -/

theorem copySlots_zero {α : Type} (buf : Nat → α) (src dst : Nat) :
    copySlots buf src dst 0 = buf := by
  funext j
  simp only [copySlots]
  rw [if_neg (by omega)]

theorem len_growIf {α : Type} (v : VecState α) (c : Prop) [Decidable c] :
    (if c then v.grow else v).len = v.len := by
  split <;> rfl

theorem buf_growIf {α : Type} (v : VecState α) (c : Prop) [Decidable c] :
    (if c then v.grow else v).buf = v.buf := by
  split <;> rfl

theorem deref_getElem {α : Type} (v : VecState α) (i : Nat) :
    v.deref[i]? = if i < v.len then some (v.buf i) else none := by
  simp only [VecState.deref, List.getElem?_map]
  split
  · rename_i h
    rw [List.getElem?_range h]
    rfl
  · rename_i h
    rw [List.getElem?_eq_none (by simp only [List.length_range]; omega)]
    rfl

/-! ### Claims -/

/-- C1 (refuted, allocation-size defect in `MyVec::grow`): on the realloc
path the source passes the element count `new_cap` where `realloc` expects
the new size in bytes.  Growing a capacity-1 buffer of 4-byte elements (such
as `i32`, after `push(1); push(2)` triggers this grow) under a succeeding
allocator yields capacity 2 backed by only 2 allocated bytes: fewer than the
4 bytes of the element already stored (so its bytes are not preserved by the
shrinking reallocation) and fewer than the 2 * 4 bytes the recorded capacity
claims to back, so a growing push writes outside the allocation instead of
preserving the stored sequence. -/
theorem grow_realloc_undersized :
    grow 4 ⟨1, 4⟩ true = .ok ⟨2, 2⟩
      ∧ (⟨2, 2⟩ : RawBuf).allocBytes < 1 * 4
      ∧ (⟨2, 2⟩ : RawBuf).allocBytes < (⟨2, 2⟩ : RawBuf).cap * 4 := by
  refine ⟨rfl, by norm_num, by norm_num⟩

/-- C2 (refuted, wrong assertion in `MyVec::new`): the source asserts
`align_of::<T>() != 0`, but every Rust type has alignment at least 1, so the
assertion also passes for the zero-sized type `()` (size 0, alignment 1) and
construction succeeds with capacity 0 and length 0 instead of panicking as
the specification (and the assertion's own message) requires. -/
theorem new_zst_succeeds :
    sizeOfUnitType = 0 ∧ mkNew alignOfUnitType = .ok (⟨0, 0⟩, 0) :=
  ⟨rfl, rfl⟩

/-- C8: `MyVec::grow` rejects a growth whose byte size exceeds `isize::MAX`
with a fatal fault regardless of the allocator (so before any allocation
call), returns no updated buffer when the allocation fails, and on success
reports the doubled capacity with its byte size within `isize::MAX`. -/
theorem grow_isize_check_and_late_update :
    (∀ (sizeOfT : Nat) (b : RawBuf) (allocOk : Bool),
        isizeMax < (if b.cap = 0 then 1 else b.cap * 2) * sizeOfT →
        grow sizeOfT b allocOk = .error .layoutOverflow)
    ∧ (∀ (sizeOfT : Nat) (b b2 : RawBuf), grow sizeOfT b false ≠ .ok b2)
    ∧ (∀ (sizeOfT : Nat) (b : RawBuf) (allocOk : Bool) (b2 : RawBuf),
        grow sizeOfT b allocOk = .ok b2 →
        allocOk = true
          ∧ b2.cap = (if b.cap = 0 then 1 else b.cap * 2)
          ∧ b2.cap * sizeOfT ≤ isizeMax) := by
  refine ⟨?_, ?_, ?_⟩
  · intro sizeOfT b allocOk h
    simp only [grow, layoutArray]
    rw [if_neg (by omega)]
  · intro sizeOfT b b2 h
    simp only [grow] at h
    split at h
    · exact Except.noConfusion h
    · split at h
      · split at h
        · rename_i hfalse
          exact Bool.noConfusion hfalse
        · exact Except.noConfusion h
      · exact Except.noConfusion h
  · intro sizeOfT b allocOk b2 h
    simp only [grow] at h
    split at h
    · exact Except.noConfusion h
    · rename_i nls heq
      split at h
      · rename_i hle
        split at h
        · rename_i hok
          injection h with h2
          subst h2
          refine ⟨hok, rfl, ?_⟩
          show (if b.cap = 0 then 1 else b.cap * 2) * sizeOfT ≤ isizeMax
          by_cases hcond : (if b.cap = 0 then 1 else b.cap * 2) * sizeOfT ≤ isizeMax
          · exact hcond
          · unfold layoutArray at heq
            rw [if_neg hcond] at heq
            exact Option.noConfusion heq
        · exact Except.noConfusion h
      · exact Except.noConfusion h

/-- C8 witness: growing from capacity 0 with a 2^63-byte element type is
rejected as a layout overflow even though the allocator would succeed. -/
theorem grow_isize_check_witness :
    grow (2 ^ 63) ⟨0, 0⟩ true = .error .layoutOverflow :=
  grow_isize_check_and_late_update.1 (2 ^ 63) ⟨0, 0⟩ true (by norm_num [isizeMax])

/-- C10: inserting at index `len` is exactly `push`: the bounds check
passes, the shift copies zero slots, and the element is written into slot
`len` with the same growth behaviour. -/
theorem insert_at_len_eq_push {α : Type} (v : VecState α) (ele : α) :
    v.insert v.len ele = .ok (v.push ele) := by
  by_cases hc : v.len = v.cap <;>
    simp [VecState.insert, VecState.push, VecState.grow, hc, copySlots_zero]

/-- C7: the `Deref`/`DerefMut` view exposes exactly the live range
`[0, len)`: reading index `i < len` yields the element in slot `i` and
writing it overwrites slot `i`, while any index `≥ len` is a fatal bounds
fault (out-of-range read yields no element, out-of-range write faults). -/
theorem deref_view_bounds {α : Type} (v : VecState α) (i : Nat) (x : α) :
    (i < v.len → v.deref[i]? = some (v.buf i))
    ∧ (v.len ≤ i → v.deref[i]? = none)
    ∧ v.deref.length = v.len
    ∧ (i < v.len → v.setIdx i x = .ok ⟨writeSlot v.buf i x, v.cap, v.len⟩)
    ∧ (v.len ≤ i → v.setIdx i x = .error .boundsFault) := by
  refine ⟨?_, ?_, ?_, ?_, ?_⟩
  · intro h
    rw [deref_getElem, if_pos h]
  · intro h
    rw [deref_getElem, if_neg (by omega)]
  · simp [VecState.deref]
  · intro h
    simp [VecState.setIdx, h]
  · intro h
    simp [VecState.setIdx]
    omega

/-- C7 witness: in the two-element vector obtained by pushing 7 then 8,
index 1 reads the stored slot and index 2 is out of bounds. -/
theorem deref_view_bounds_witness :
    ((((VecState.new 0).push 7).push 8).deref[1]?
        = some ((((VecState.new 0).push 7).push 8).buf 1))
    ∧ ((((VecState.new 0).push 7).push 8).deref[2]? = none) :=
  ⟨(deref_view_bounds (((VecState.new 0).push 7).push 8) 1 5).1 (by decide),
   (deref_view_bounds (((VecState.new 0).push 7).push 8) 2 5).2.1 (by decide)⟩

theorem insert_ok {α : Type} (v : VecState α) (idx : Nat) (ele : α) (h : idx ≤ v.len) :
    v.insert idx ele
      = .ok ⟨writeSlot (copySlots v.buf idx (idx + 1) (v.len - idx)) idx ele,
             (if v.len = v.cap then v.grow else v).cap, v.len + 1⟩ := by
  by_cases hc : v.len = v.cap <;> simp [VecState.insert, VecState.grow, h, hc] <;> omega

theorem remove_ok {α : Type} (v : VecState α) (idx : Nat) (h : idx < v.len) :
    v.remove idx
      = .ok (v.buf idx,
             ⟨copySlots v.buf (idx + 1) idx (v.len - idx - 1), v.cap, v.len - 1⟩) := by
  simp only [VecState.remove, if_pos h]

theorem push_eq {α : Type} (v : VecState α) (x : α) :
    v.push x = ⟨writeSlot v.buf v.len x,
                (if v.len = v.cap then v.grow else v).cap, v.len + 1⟩ := by
  by_cases hc : v.len = v.cap <;> simp [VecState.push, VecState.grow, hc]

theorem deref_length {α : Type} (v : VecState α) : v.deref.length = v.len := by
  simp [VecState.deref]

/-- C3: `insert` with `idx ≤ len` succeeds, increases the length by exactly
one, makes the view read the new element at `idx`, and moves the element
formerly at `idx` (when one existed) to `idx + 1`; with `idx > len` it is a
fatal bounds fault, raised before any modification. -/
theorem insert_spec {α : Type} (v : VecState α) (idx : Nat) (ele : α) :
    (idx ≤ v.len →
      ∃ v2, v.insert idx ele = .ok v2
        ∧ v2.len = v.len + 1
        ∧ v2.deref[idx]? = some ele
        ∧ (idx < v.len → v2.deref[idx + 1]? = some (v.buf idx)))
    ∧ (v.len < idx → v.insert idx ele = .error .boundsFault) := by
  constructor
  · intro h
    refine ⟨_, insert_ok v idx ele h, rfl, ?_, ?_⟩
    · rw [deref_getElem, if_pos (show idx < v.len + 1 by omega)]
      simp [writeSlot]
    · intro hlt
      rw [deref_getElem, if_pos (show idx + 1 < v.len + 1 by omega)]
      simp only [writeSlot, copySlots]
      rw [if_neg (by omega), if_pos (by omega)]
      simp
  · intro h
    simp only [VecState.insert]
    rw [if_neg (by omega)]

/-- C3 witness: inserting 9 at index 1 of the vector holding 1, 2. -/
theorem insert_spec_witness :
    ∃ v2, (((VecState.new 0).push 1).push 2).insert 1 9 = .ok v2
      ∧ v2.len = (((VecState.new 0).push 1).push 2).len + 1
      ∧ v2.deref[1]? = some 9
      ∧ (1 < (((VecState.new 0).push 1).push 2).len →
          v2.deref[2]? = some ((((VecState.new 0).push 1).push 2).buf 1)) :=
  (insert_spec (((VecState.new 0).push 1).push 2) 1 9).1 (by decide)

/-- C4: `remove` with `idx < len` returns the element at `idx`, decreases
the length by exactly one, keeps every element before `idx` in place and
moves every element formerly at a position `j` in `(idx, len)` to `j - 1`;
with `idx ≥ len` it is a fatal bounds fault, raised before any
modification. -/
theorem remove_spec {α : Type} (v : VecState α) (idx : Nat) :
    (idx < v.len →
      ∃ out, v.remove idx = .ok out
        ∧ out.1 = v.buf idx
        ∧ out.2.len = v.len - 1
        ∧ (∀ j, j < idx → out.2.deref[j]? = some (v.buf j))
        ∧ (∀ j, idx < j → j < v.len → out.2.deref[j - 1]? = some (v.buf j)))
    ∧ (v.len ≤ idx → v.remove idx = .error .boundsFault) := by
  constructor
  · intro h
    refine ⟨_, remove_ok v idx h, rfl, rfl, ?_, ?_⟩
    · intro j hj
      rw [deref_getElem, if_pos (show j < v.len - 1 by omega)]
      simp only [copySlots]
      rw [if_neg (by omega)]
    · intro j hj1 hj2
      rw [deref_getElem, if_pos (show j - 1 < v.len - 1 by omega)]
      simp only [copySlots]
      rw [if_pos (by omega)]
      have harg : idx + 1 + (j - 1 - idx) = j := by omega
      rw [harg]
  · intro h
    simp only [VecState.remove]
    rw [if_neg (by omega)]

/-- C4 witness: removing index 1 of the vector holding 4, 5, 6. -/
theorem remove_spec_witness :
    ∃ out, ((((VecState.new 0).push 4).push 5).push 6).remove 1 = .ok out
      ∧ out.1 = ((((VecState.new 0).push 4).push 5).push 6).buf 1
      ∧ out.2.len = ((((VecState.new 0).push 4).push 5).push 6).len - 1
      ∧ (∀ j, j < 1 → out.2.deref[j]? = some (((((VecState.new 0).push 4).push 5).push 6).buf j))
      ∧ (∀ j, 1 < j → j < ((((VecState.new 0).push 4).push 5).push 6).len →
          out.2.deref[j - 1]? = some (((((VecState.new 0).push 4).push 5).push 6).buf j)) :=
  (remove_spec ((((VecState.new 0).push 4).push 5).push 6) 1).1 (by decide)

theorem deref_push {α : Type} (v : VecState α) (x : α) :
    (v.push x).deref = v.deref ++ [x] := by
  rw [push_eq]
  simp only [VecState.deref, List.range_succ, List.map_append, List.map_cons, List.map_nil]
  congr 1
  · apply List.map_congr_left
    intro a ha
    simp only [List.mem_range] at ha
    simp only [writeSlot]
    rw [if_neg (by omega)]
  · simp [writeSlot]

theorem deref_pushAll {α : Type} (l : List α) (v : VecState α) :
    (pushAll v l).deref = v.deref ++ l := by
  induction l generalizing v with
  | nil => simp [pushAll]
  | cons x xs ih => simp [pushAll, ih, deref_push]

theorem pops_spec {α : Type} (n : Nat) (v : VecState α) :
    (pops n v).1
      = (v.deref.reverse.take n).map some ++ List.replicate (n - v.len) none := by
  induction n generalizing v with
  | zero => simp [pops]
  | succ n ih =>
    by_cases h0 : v.len = 0
    · simp only [pops, VecState.pop, if_pos h0]
      rw [ih]
      simp [VecState.deref, h0, List.replicate_succ]
    · obtain ⟨m, hm⟩ : ∃ m, v.len = m + 1 := ⟨v.len - 1, by omega⟩
      simp only [pops, VecState.pop, if_neg h0]
      rw [ih]
      simp only [VecState.deref, hm, Nat.add_sub_cancel, List.range_succ, List.map_append,
        List.map_cons, List.map_nil, List.reverse_append, List.reverse_cons, List.reverse_nil,
        List.nil_append, List.cons_append, List.take_succ_cons, Nat.succ_sub_succ_eq_sub,
        Nat.sub_zero]

/-- C5: pushing the elements of any list into a fresh vector and then
popping length-plus-one times yields the values in exact reverse insertion
order, each as `some`, followed by `none` for the extra pop. -/
theorem push_pop_reverse {α : Type} (junk : α) (l : List α) :
    (pops (l.length + 1) (pushAll (VecState.new junk) l)).1
      = l.reverse.map some ++ [none] := by
  have hlen : (pushAll (VecState.new junk) l).len = l.length := by
    rw [← deref_length, deref_pushAll]
    simp [VecState.deref, VecState.new]
  rw [pops_spec, deref_pushAll, hlen]
  have hnew : (VecState.new junk).deref = [] := by
    simp [VecState.deref, VecState.new]
  rw [hnew, List.nil_append,
    List.take_of_length_le (by simp), Nat.add_sub_cancel_left]
  rfl

theorem len_lt_cap_growIf {α : Type} (v : VecState α) (h : v.len ≤ v.cap) :
    v.len + 1 ≤ (if v.len = v.cap then v.grow else v).cap := by
  by_cases hc : v.len = v.cap
  · simp only [if_pos hc, VecState.grow]
    by_cases h0 : v.cap = 0 <;> simp [h0] <;> omega
  · simp only [if_neg hc]
    omega

/-- C9: a fresh vector has length 0 and capacity 0; `len ≤ cap` is preserved
by push, pop, insert and remove; and a push doubles the capacity
(0 becomes 1, otherwise twice the capacity) exactly when the length has
reached the capacity, leaving it unchanged otherwise. -/
theorem len_le_cap_invariant {α : Type} (junk x : α) (v : VecState α) (idx : Nat) :
    ((VecState.new junk).len = 0 ∧ (VecState.new junk).cap = 0)
    ∧ (v.len ≤ v.cap →
        (v.push x).len ≤ (v.push x).cap
          ∧ (v.pop).2.len ≤ (v.pop).2.cap
          ∧ (∀ v2, v.insert idx x = .ok v2 → v2.len ≤ v2.cap)
          ∧ (∀ out, v.remove idx = .ok out → out.2.len ≤ out.2.cap))
    ∧ (v.len = v.cap → (v.push x).cap = (if v.cap = 0 then 1 else v.cap * 2))
    ∧ (v.len ≠ v.cap → (v.push x).cap = v.cap) := by
  refine ⟨⟨rfl, rfl⟩, ?_, ?_, ?_⟩
  · intro h
    refine ⟨?_, ?_, ?_, ?_⟩
    · rw [push_eq]
      exact len_lt_cap_growIf v h
    · by_cases h0 : v.len = 0 <;> simp [VecState.pop, h0] <;> omega
    · intro v2 h2
      by_cases hi : idx ≤ v.len
      · rw [insert_ok v idx x hi] at h2
        injection h2 with h3
        subst h3
        exact len_lt_cap_growIf v h
      · simp only [VecState.insert] at h2
        rw [if_neg hi] at h2
        exact Except.noConfusion h2
    · intro out h2
      by_cases hi : idx < v.len
      · rw [remove_ok v idx hi] at h2
        injection h2 with h3
        subst h3
        show v.len - 1 ≤ v.cap
        omega
      · simp only [VecState.remove] at h2
        rw [if_neg hi] at h2
        exact Except.noConfusion h2
  · intro hc
    rw [push_eq]
    simp [hc, VecState.grow]
  · intro hc
    rw [push_eq]
    simp [hc]

/-- C9 witness: the first push into a fresh vector grows the capacity from
0 to 1. -/
theorem len_le_cap_invariant_witness :
    ((VecState.new 0).push 5).cap
      = (if (VecState.new 0).cap = 0 then 1 else (VecState.new 0).cap * 2) :=
  (len_le_cap_invariant 0 5 (VecState.new 0) 0).2.2.1 rfl

theorem remaining_front {α : Type} (it : IntoIter α) (h : it.start < it.stop) :
    it.remaining
      = it.buf it.start
          :: IntoIter.remaining ⟨it.buf, it.cap, it.start + 1, it.stop⟩ := by
  simp only [IntoIter.remaining]
  obtain ⟨k, hk⟩ : ∃ k, it.stop - it.start = k + 1 := ⟨it.stop - it.start - 1, by omega⟩
  have hk2 : it.stop - (it.start + 1) = k := by omega
  rw [hk, hk2, List.range_succ_eq_map]
  simp only [List.map_cons, List.map_map, Nat.add_zero]
  congr 1
  apply List.map_congr_left
  intro a ha
  simp only [Function.comp_apply]
  congr 1
  omega

theorem remaining_back {α : Type} (it : IntoIter α) (h : it.start < it.stop) :
    it.remaining
      = IntoIter.remaining ⟨it.buf, it.cap, it.start, it.stop - 1⟩
          ++ [it.buf (it.stop - 1)] := by
  simp only [IntoIter.remaining]
  obtain ⟨k, hk⟩ : ∃ k, it.stop - it.start = k + 1 := ⟨it.stop - it.start - 1, by omega⟩
  have hk2 : it.stop - 1 - it.start = k := by omega
  rw [hk, hk2, List.range_succ]
  simp only [List.map_append, List.map_cons, List.map_nil]
  have harg : it.start + k = it.stop - 1 := by omega
  rw [harg]

theorem runIter_multiset {α : Type} (cs : List Dir) (it : IntoIter α)
    (h : it.start ≤ it.stop) :
    (((runIter cs it).1.filterMap id : List α) : Multiset α)
        + ((runIter cs it).2.remaining : Multiset α)
      = (it.remaining : Multiset α)
    ∧ (runIter cs it).2.start ≤ (runIter cs it).2.stop := by
  induction cs generalizing it with
  | nil => simpa [runIter] using h
  | cons d ds ih =>
    cases d with
    | front =>
      by_cases he : it.start = it.stop
      · simp only [runIter, IntoIter.step, IntoIter.next, if_pos he]
        have hr := ih it h
        simpa [List.filterMap_cons] using hr
      · have hlt : it.start < it.stop := by omega
        simp only [runIter, IntoIter.step, IntoIter.next, if_neg he]
        have hr := ih ⟨it.buf, it.cap, it.start + 1, it.stop⟩ (by simp; omega)
        constructor
        · rw [remaining_front it hlt]
          simp only [List.filterMap_cons, id]
          rw [← Multiset.cons_coe, ← Multiset.cons_coe, Multiset.cons_add, hr.1]
        · exact hr.2
    | back =>
      by_cases he : it.start = it.stop
      · simp only [runIter, IntoIter.step, IntoIter.next_back, if_pos he]
        have hr := ih it h
        simpa [List.filterMap_cons] using hr
      · have hlt : it.start < it.stop := by omega
        simp only [runIter, IntoIter.step, IntoIter.next_back, if_neg he]
        have hr := ih ⟨it.buf, it.cap, it.start, it.stop - 1⟩ (by simp; omega)
        constructor
        · rw [remaining_back it hlt]
          simp only [List.filterMap_cons, id]
          rw [← Multiset.cons_coe, Multiset.cons_add, hr.1, Multiset.cons_coe,
            Multiset.coe_eq_coe]
          exact (List.perm_append_singleton _ _).symm
        · exact hr.2

/-- C6: consuming the vector holding 1..5 and calling
next, next, next_back, next_back, next, next, next_back yields exactly
1, 2, 5, 4, 3, none, none; in general, over any interleaving of front and
back calls the yielded values together with the still-unconsumed range are
exactly the original elements (so nothing is lost, duplicated or invented),
and once `start == end` both ends yield `none`. -/
theorem into_iter_double_ended :
    ((runIter [Dir.front, Dir.front, Dir.back, Dir.back, Dir.front, Dir.front, Dir.back]
        ((((((VecState.new 0).push 1).push 2).push 3).push 4).push 5).into_iter).1
      = [some 1, some 2, some 5, some 4, some 3, none, none])
    ∧ (∀ (α : Type) (v : VecState α) (cs : List Dir),
        (((runIter cs v.into_iter).1.filterMap id : List α) : Multiset α)
            + ((runIter cs v.into_iter).2.remaining : Multiset α)
          = (v.into_iter.remaining : Multiset α))
    ∧ (∀ (α : Type) (it : IntoIter α), it.start = it.stop →
        it.next.1 = none ∧ it.next_back.1 = none) := by
  refine ⟨by decide, ?_, ?_⟩
  · intro α v cs
    exact (runIter_multiset cs v.into_iter (Nat.zero_le _)).1
  · intro α it h
    constructor
    · simp [IntoIter.next, h]
    · simp [IntoIter.next_back, h]

/-- C6 witness: an exhausted iterator (both cursors at slot 3) yields `none`
from both ends. -/
theorem into_iter_double_ended_witness :
    (IntoIter.next ⟨fun _ => 0, 8, 3, 3⟩).1 = none
    ∧ (IntoIter.next_back ⟨fun _ => 0, 8, 3, 3⟩).1 = (none : Option Nat) :=
  into_iter_double_ended.2.2 Nat ⟨fun _ => 0, 8, 3, 3⟩ rfl

end MyVecModel
